import Mathlib

/-!
Shallow embedding of the core of `scvi-tools` (files
`scvi/core/data_loaders/scvi_data_loader.py` and
`scvi/compose/_base_module.py`), together with theorems settling the
specification's claims about it.

Conventions of the embedding:
* machine integers are `Nat`/`Int`; numeric scalars of the losses and the
  data matrix are `Rat`;
* Python dicts are association lists `List (String × _)` in insertion
  order;
* `torch.randperm` is modelled by an explicit permutation parameter
  carrying the hypothesis that it permutes `List.range n`;
* fallible construction returns `Except`.
-/

set_option autoImplicit false

namespace Scvi

universe u v

/-! ## BatchSampler (`scvi_data_loader.py`, lines 16-51) -/

/-- Fuel-based chunking of a list into consecutive chunks of size `b`
(the final chunk may be shorter), mirroring
`[idx[i : i + batch_size] for i in range(0, len(idx), batch_size)]`.
The fuel is the list length, which suffices for `b ≥ 1`. -/
def chunksAux {α : Type u} : Nat → List α → Nat → List (List α)
  | 0, _, _ => []
  | _ + 1, [], _ => []
  | f + 1, x :: xs, b => (x :: xs).take b :: chunksAux f ((x :: xs).drop b) b

/-- Partition `l` into consecutive chunks of size `b`. -/
def chunks {α : Type u} (l : List α) (b : Nat) : List (List α) :=
  chunksAux l.length l b

/-- The sampler of `scvi_data_loader.py`: a list of dataset indices, a
batch size and a shuffle flag. -/
structure BatchSampler where
  indices : List Nat
  batch_size : Nat
  shuffle : Bool
deriving DecidableEq

/-- The position order `idx` built at the start of `BatchSampler.__iter__`:
`torch.randperm(len(self.indices)).tolist()` when shuffling (modelled by the
explicit `perm` argument), `torch.arange(len(self.indices)).tolist()`
otherwise. -/
def BatchSampler.idxOrder (s : BatchSampler) (perm : List Nat) : List Nat :=
  if s.shuffle then perm else List.range s.indices.length

/-- NumPy fancy indexing `a[ids]` on an integer index list (all positions
produced by the sampler are in bounds, so the `getD` default is never
read). -/
def fancyIndex (a : List Nat) : List Nat → List Nat :=
  List.map fun i => a.getD i 0

/-- `BatchSampler.__iter__`: chunk the (possibly permuted) positions into
batches of `batch_size` and map each through `self.indices`. -/
def BatchSampler.iter (s : BatchSampler) (perm : List Nat) : List (List Nat) :=
  (chunks (s.idxOrder perm) s.batch_size).map (fancyIndex s.indices)

/-- `BatchSampler.__len__`: `len(self.indices) // self.batch_size`. -/
def BatchSampler.len (s : BatchSampler) : Nat :=
  s.indices.length / s.batch_size

/-! ## ScviDataLoader construction (`scvi_data_loader.py`, lines 79-147) -/

/-- NumPy dtypes appearing in the loader's field spec. -/
inductive Dtype
  | float32
  | int64
deriving DecidableEq, Repr

/-- Modelled from the spec: the default field names of `_CONSTANTS`
(`X_KEY` etc., the constants module is not among the sources); the spec
names the standard set {X, batch, local_l_mean, local_l_var, labels} with
float32 for continuous fields and int64 for categorical/count fields. -/
def defaultSpec : List (String × Dtype) :=
  [("X", Dtype.float32), ("batch", Dtype.int64),
   ("local_l_mean", Dtype.float32), ("local_l_var", Dtype.float32),
   ("labels", Dtype.int64)]

/-- The slice of an `anndata.AnnData` container the loader reads:
`uns_scvi` is `adata.uns["_scvi"]["data_registry"].keys()` when `"_scvi"`
is a key of `adata.uns` (and `none` otherwise), `n_obs` the number of
rows, and `data` the per-field per-row numeric payload. -/
structure AnnData where
  uns_scvi : Option (List String)
  n_obs : Nat
  data : String → Nat → Rat

/-- The `indices` argument of the loader: either a NumPy boolean mask
(an array whose dtype is `np.dtype("bool")`) or a positional index
list/array. -/
inductive IndicesArg
  | boolMask (m : List Bool)
  | positional (l : List Nat)

/-- `np.where(mask)[0].ravel()`: the positions at which the mask is
true, in increasing order. -/
def npWhere (m : List Bool) : List Nat :=
  (List.range m.length).filter fun i => m.getD i false

/-- The two `ValueError`s of `ScviDataLoader.__init__`, under the spec's
names: `notConfigured` for "Please run setup_anndata() on your anndata
object first." and `missingField k` for "`k` required for model but not
included when setup_anndata was run". -/
inductive InitError
  | notConfigured
  | missingField (key : String)
deriving DecidableEq

/-- Resolution of `self._data_and_attributes`: the default spec when the
`data_and_attributes` argument is `None`, the argument itself otherwise. -/
def resolveSpec (daa : Option (List (String × Dtype))) : List (String × Dtype) :=
  match daa with
  | none => defaultSpec
  | some s => s

/-- The state a successful `ScviDataLoader.__init__` establishes, as far
as the claims read it: the resolved field spec and the constructed
`BatchSampler`. -/
structure ScviDataLoader where
  _data_and_attributes : List (String × Dtype)
  sampler : BatchSampler
deriving DecidableEq

/-- `ScviDataLoader.__init__` up to the construction of the sampler:
registry-presence check, field-spec resolution, per-key registry check in
spec order, then the index-selection and shuffle policy building the
`BatchSampler` (`len(self.dataset)` is the container's row count: the
dataset view is a projection over the container's rows). -/
def scviDataLoaderInit (adata : AnnData) (shuffle : Bool)
    (indices : Option IndicesArg) (batch_size : Nat)
    (daa : Option (List (String × Dtype))) : Except InitError ScviDataLoader :=
  match adata.uns_scvi with
  | none => .error .notConfigured
  | some reg =>
    let spec := resolveSpec daa
    match (spec.map Prod.fst).find? (fun k => !(reg.contains k)) with
    | some k => .error (.missingField k)
    | none =>
      let sw : BatchSampler :=
        match indices with
        | none =>
          { indices := List.range adata.n_obs, batch_size := batch_size,
            shuffle := shuffle }
        | some (.boolMask m) =>
          { indices := npWhere m, batch_size := batch_size, shuffle := true }
        | some (.positional l) =>
          { indices := l, batch_size := batch_size, shuffle := true }
      .ok { _data_and_attributes := spec, sampler := sw }

/-! ## Dataset view and tensor batches -/

/-- A scalar tensor entry tagged with its realized dtype. -/
inductive Val
  | f32 (q : Rat)
  | i64 (n : Int)
deriving DecidableEq

/-- Modelled from the spec: the dtype cast the FieldSpec requests
(`float32` keeps the numeric value; `int64` truncates toward zero as
NumPy's integer cast does). -/
def castTo : Dtype → Rat → Val
  | .float32, q => .f32 q
  | .int64, q => .i64 (q.num / (q.den : Int))

/-- Whether a realized value has the requested dtype. -/
def Val.hasDtype : Val → Dtype → Bool
  | .f32 _, .float32 => true
  | .i64 _, .int64 => true
  | _, _ => false

/-- Modelled from the spec: the TensorBatch realized for a batch of row
indices — a mapping from field name to the column of cast values, one per
selected row, keyed and typed by the resolved FieldSpec (the
`ScviDataset.__getitem__`/collation code is not among the sources). -/
def tensorBatch (adata : AnnData) (spec : List (String × Dtype))
    (rows : List Nat) : List (String × List Val) :=
  spec.map fun p => (p.1, rows.map fun i => castTo p.2 (adata.data p.1 i))

/-- One traversal of the loader: the sampler's batches of row indices,
each realized as a TensorBatch through the resolved FieldSpec. -/
def loaderBatches (adata : AnnData) (st : ScviDataLoader) (perm : List Nat) :
    List (List (String × List Val)) :=
  (st.sampler.iter perm).map (tensorBatch adata st._data_and_attributes)

/-- A TensorBatch is well typed for a spec when it has one entry per spec
field, with that field's name, and every value of the entry realizes the
field's dtype. -/
def wellTyped (spec : List (String × Dtype)) (tb : List (String × List Val)) : Bool :=
  decide (tb.length = spec.length) &&
    (spec.zip tb).all fun z =>
      decide (z.2.1 = z.1.1) && z.2.2.all fun v => v.hasDtype z.1.2

/-! ## data_loader_kwargs handling (`scvi_data_loader.py`, lines 143-145)

`self.data_loader_kwargs = copy.copy(data_loader_kwargs)` followed by
`self.data_loader_kwargs.update({"sampler": sampler, "batch_size": None})`
is modelled with explicit object identity: dict objects live in a heap
addressed by allocation order, `copy.copy` allocates a fresh object with
the same entries, and `update` mutates in place. -/

/-- A value stored in the kwargs dict: Python `None`, the sampler object,
or any other caller-supplied value. -/
inductive PyObj
  | pyNone
  | sampler (s : BatchSampler)
  | other (n : Int)

/-- A Python dict as an association list in insertion order. -/
abbrev PyDict : Type := List (String × PyObj)

/-- Dict lookup: the value at the first entry with the given key. -/
def dictGet : PyDict → String → Option PyObj
  | [], _ => none
  | (k', v') :: rest, k => if k' == k then some v' else dictGet rest k

/-- `d[k] = v` on a dict: replace the value in place if the key is
present, append a new entry otherwise. -/
def setKey (d : PyDict) (k : String) (v : PyObj) : PyDict :=
  match d with
  | [] => [(k, v)]
  | (k', v') :: rest =>
    if k' == k then (k, v) :: rest else (k', v') :: setKey rest k v

/-- `d.update(kvs)`: set each entry of `kvs` in order. -/
def dictUpdate (d : PyDict) (kvs : List (String × PyObj)) : PyDict :=
  kvs.foldl (fun acc p => setKey acc p.1 p.2) d

/-- The heap of dict objects, addressed by position. -/
abbrev Heap : Type := List PyDict

/-- Read the dict object at an address. -/
def heapGet (h : Heap) (a : Nat) : PyDict :=
  h.getD a []

/-- Overwrite the dict object at an address. -/
def heapSet (h : Heap) (a : Nat) (d : PyDict) : Heap :=
  h.set a d

/-- Lines 143-145 of `scvi_data_loader.py`: shallow-copy the caller's
`data_loader_kwargs` (a fresh allocation holding the same entries), then
update the copy with `{"sampler": sampler, "batch_size": None}`. Returns
the address of `self.data_loader_kwargs` and the resulting heap. -/
def dataLoaderKwargsSetup (h : Heap) (a : Nat) (s : BatchSampler) : Nat × Heap :=
  let copied := heapGet h a
  let a2 := h.length
  let h2 := h ++ [copied]
  let h3 := heapSet h2 a2
    (dictUpdate copied [("sampler", PyObj.sampler s), ("batch_size", PyObj.pyNone)])
  (a2, h3)

/-! ## SCVILoss (`_base_module.py`, lines 10-51) -/

/-- A constructor argument of `SCVILoss`: a bare scalar/tensor value or an
already-named mapping (`isinstance(x, dict)`). Scalars are modelled as
rationals. -/
inductive LossInput
  | scalar (q : Rat)
  | mapping (d : List (String × Rat))

/-- The normalization `x if isinstance(x, dict) else dict(name=x)` applied
to each constructor argument. -/
def LossInput.normalize (name : String) : LossInput → List (String × Rat)
  | .mapping d => d
  | .scalar q => [(name, q)]

/-- The four normalized term mappings `SCVILoss.__init__` stores. -/
structure SCVILoss where
  _loss : List (String × Rat)
  _reconstruction_loss : List (String × Rat)
  _kl_local : List (String × Rat)
  _kl_global : List (String × Rat)

/-- `SCVILoss.__init__`: normalize each argument under its default name. -/
def SCVILoss.init (loss reconstruction_loss kl_local kl_global : LossInput) :
    SCVILoss where
  _loss := loss.normalize "loss"
  _reconstruction_loss := reconstruction_loss.normalize "reconstruction_loss"
  _kl_local := kl_local.normalize "kl_local"
  _kl_global := kl_global.normalize "kl_global"

/-- `SCVILoss._get_dict_sum`: sum of the dict's values starting from 0. -/
def _get_dict_sum (d : List (String × Rat)) : Rat :=
  d.foldl (fun s p => s + p.2) 0

/-- The `loss` property. -/
def SCVILoss.loss (s : SCVILoss) : Rat := _get_dict_sum s._loss

/-- The `reconstruction_loss` property. -/
def SCVILoss.reconstruction_loss (s : SCVILoss) : Rat :=
  _get_dict_sum s._reconstruction_loss

/-- The `kl_local` property. -/
def SCVILoss.kl_local (s : SCVILoss) : Rat := _get_dict_sum s._kl_local

/-- The `kl_global` property. -/
def SCVILoss.kl_global (s : SCVILoss) : Rat := _get_dict_sum s._kl_global

/-- The `elbo` property: declared, returns `None` in the base contract. -/
def SCVILoss.elbo (_ : SCVILoss) : Option Rat := none

/-! ## AbstractVAE.forward (`_base_module.py`, lines 54-146) -/

/-- A Python value passed for one of the five keyword-override parameters
of `forward`: `None` (the default), a number, a list, or a dict. Only the
last satisfies `isinstance(param, dict)`. Dict values are modelled as
integers. -/
inductive PParam
  | pnone
  | pnum (n : Int)
  | plist (l : List Int)
  | pdict (d : List (String × Int))

/-- `isinstance(param, dict)`. -/
def PParam.isDict : PParam → Bool
  | .pdict _ => true
  | _ => false

/-- Keyword arguments as received by the hooks. -/
abbrev KW : Type := List (String × Int)

/-- `_get_dict_if_none`: `{} if not isinstance(param, dict) else param`. -/
def _get_dict_if_none (param : PParam) : KW :=
  match param with
  | .pdict d => d
  | _ => []

/-- The abstract capability set of `AbstractVAE`, over opaque stage types:
`T` the raw tensor batch, `II`/`GI` the gathered inference/generative
inputs, `IOut`/`GO` the inference/generative outputs, `L` the loss
aggregate. Each hook receives its stage's keyword overrides. -/
structure AbstractVAE (T II IOut GI GO L : Type u) where
  get_inference_input : T → KW → II
  inference : II → KW → IOut
  get_generative_input : T → IOut → KW → GI
  generative : GI → KW → GO
  loss : T → IOut → GO → KW → L

/-- The return value of `forward`: a 2-tuple without loss, a 3-tuple with
it. -/
inductive ForwardResult (IOut GO L : Type u)
  | pair (io : IOut) (go : GO)
  | triple (io : IOut) (go : GO) (l : L)
deriving DecidableEq

/-- `AbstractVAE.forward`: normalize the five keyword overrides, then run
gather-inference-input, inference, gather-generative-input, generative,
and (when `compute_loss`) loss, in that order, each stage's output
feeding the next. -/
def AbstractVAE.forward {T II IOut GI GO L : Type u} (m : AbstractVAE T II IOut GI GO L)
    (tensors : T) (get_inference_input_kwargs get_generative_input_kwargs
      inference_kwargs generative_kwargs loss_kwargs : PParam)
    (compute_loss : Bool) : ForwardResult IOut GO L :=
  let ik := _get_dict_if_none inference_kwargs
  let gk := _get_dict_if_none generative_kwargs
  let lk := _get_dict_if_none loss_kwargs
  let giik := _get_dict_if_none get_inference_input_kwargs
  let ggik := _get_dict_if_none get_generative_input_kwargs
  let inference_inputs := m.get_inference_input tensors giik
  let inference_outputs := m.inference inference_inputs ik
  let generative_inputs := m.get_generative_input tensors inference_outputs ggik
  let generative_outputs := m.generative generative_inputs gk
  if compute_loss then
    .triple inference_outputs generative_outputs
      (m.loss tensors inference_outputs generative_outputs lk)
  else
    .pair inference_outputs generative_outputs

/-! ## Helper lemmas on chunking and permutations -/

theorem chunksAux_join {α : Type u} (b : Nat) (hb : 1 ≤ b) :
    ∀ (fuel : Nat) (l : List α), l.length ≤ fuel → (chunksAux fuel l b).flatten = l := by
  intro fuel
  induction fuel with
  | zero =>
    intro l hl
    have h0 : l = [] := List.eq_nil_of_length_eq_zero (Nat.le_zero.mp hl)
    subst h0; rfl
  | succ f ih =>
    intro l hl
    match l with
    | [] => rfl
    | x :: xs =>
      simp only [chunksAux, List.flatten_cons]
      rw [ih ((x :: xs).drop b) (by simp only [List.length_drop, List.length_cons] at *; omega)]
      exact List.take_append_drop b (x :: xs)

theorem chunksAux_length {α : Type u} (b : Nat) (hb : 1 ≤ b) :
    ∀ (fuel : Nat) (l : List α), l.length ≤ fuel →
      (chunksAux fuel l b).length = (l.length + b - 1) / b := by
  intro fuel
  induction fuel with
  | zero =>
    intro l hl
    have h0 : l = [] := List.eq_nil_of_length_eq_zero (Nat.le_zero.mp hl)
    subst h0
    simp only [chunksAux, List.length_nil]
    exact (Nat.div_eq_of_lt (by omega)).symm
  | succ f ih =>
    intro l hl
    match l with
    | [] =>
      simp only [chunksAux, List.length_nil]
      exact (Nat.div_eq_of_lt (by omega)).symm
    | x :: xs =>
      simp only [chunksAux, List.length_cons]
      rw [ih ((x :: xs).drop b) (by simp only [List.length_drop, List.length_cons] at *; omega)]
      rw [List.length_drop, List.length_cons]
      have h1 : xs.length + 1 + b - 1 = b * 1 + (xs.length + 1 - 1) := by omega
      rw [h1, Nat.mul_add_div (by omega)]
      rcases le_or_lt (xs.length + 1) b with h | h
      · have h2 : xs.length + 1 - b = 0 := by omega
        rw [h2, Nat.div_eq_of_lt (show 0 + b - 1 < b by omega),
          Nat.div_eq_of_lt (show xs.length + 1 - 1 < b by omega)]
      · have h2 : xs.length + 1 - b + b - 1 = xs.length + 1 - 1 := by omega
        rw [h2, Nat.add_comm]

theorem ceil_div_eq (n b : Nat) (hb : 1 ≤ b) :
    (n + b - 1) / b = n / b + (if n % b = 0 then 0 else 1) := by
  have hdm := Nat.div_add_mod n b
  have hrb : n % b < b := Nat.mod_lt n (by omega)
  rcases Nat.eq_zero_or_pos (n % b) with h0 | hpos
  · have h1 : n + b - 1 = b * (n / b) + (b - 1) := by omega
    rw [h1, Nat.mul_add_div (by omega), Nat.div_eq_of_lt (show b - 1 < b by omega)]
    simp [h0]
  · have h1 : n + b - 1 = b * (n / b) + (b * 1 + (n % b - 1)) := by omega
    rw [h1, Nat.mul_add_div (by omega), Nat.mul_add_div (by omega),
      Nat.div_eq_of_lt (show n % b - 1 < b by omega)]
    have h2 : ¬ n % b = 0 := by omega
    simp [h2]

theorem map_getD_range {α : Type u} (l : List α) (d : α) :
    (List.range l.length).map (fun i => l.getD i d) = l := by
  induction l with
  | nil => rfl
  | cons x xs ih =>
    rw [List.length_cons, List.range_succ_eq_map]
    simp only [List.map_cons, List.map_map, List.getD_cons_zero]
    have hcomp : ((fun i => (x :: xs).getD i d) ∘ Nat.succ) = fun i => xs.getD i d := by
      funext i
      rfl
    rw [hcomp, ih]

theorem idxOrder_perm (s : BatchSampler) (perm : List Nat)
    (hperm : s.shuffle = true → perm.Perm (List.range s.indices.length)) :
    (s.idxOrder perm).Perm (List.range s.indices.length) := by
  unfold BatchSampler.idxOrder
  cases hs : s.shuffle
  · simp
  · simpa using hperm hs

theorem iter_length (s : BatchSampler) (perm : List Nat) (hb : 1 ≤ s.batch_size)
    (hperm : s.shuffle = true → perm.Perm (List.range s.indices.length)) :
    (s.iter perm).length = (s.indices.length + s.batch_size - 1) / s.batch_size := by
  unfold BatchSampler.iter chunks
  rw [List.length_map, chunksAux_length _ hb _ _ le_rfl]
  rw [(idxOrder_perm s perm hperm).length_eq, List.length_range]

theorem iter_join (s : BatchSampler) (perm : List Nat) (hb : 1 ≤ s.batch_size) :
    (s.iter perm).flatten = (s.idxOrder perm).map (fun i => s.indices.getD i 0) := by
  unfold BatchSampler.iter chunks fancyIndex
  rw [← List.map_flatten, chunksAux_join _ hb _ _ le_rfl]

/-! ## C1 and C2: BatchSampler iteration -/

/-- C1: for a BatchSampler over `n` indices with batch size `b ≥ 1`
(under the `torch.randperm` model: when shuffling, `perm` is a
permutation of `range n`), `iterate()` yields `ceil(n/b)` batches whose
sizes sum to `n`, covering every index exactly once; with
`shuffle = false` the indices appear in their original order; and for
`n = 0` it yields the empty sequence. -/
theorem batchSampler_iter_covers (ind : List Nat) (b : Nat) (sh : Bool)
    (perm : List Nat) (hb : 1 ≤ b)
    (hperm : sh = true → perm.Perm (List.range ind.length)) :
    ((BatchSampler.mk ind b sh).iter perm).length = (ind.length + b - 1) / b ∧
    (((BatchSampler.mk ind b sh).iter perm).map List.length).sum = ind.length ∧
    ((BatchSampler.mk ind b sh).iter perm).flatten.Perm ind ∧
    (sh = false → ((BatchSampler.mk ind b sh).iter perm).flatten = ind) ∧
    (ind.length = 0 → (BatchSampler.mk ind b sh).iter perm = []) := by
  have hflat := iter_join (BatchSampler.mk ind b sh) perm hb
  have hord := idxOrder_perm (BatchSampler.mk ind b sh) perm hperm
  have hjp : ((BatchSampler.mk ind b sh).iter perm).flatten.Perm ind := by
    rw [hflat]
    have hmap := hord.map (fun i => ind.getD i 0)
    rw [map_getD_range] at hmap
    exact hmap
  refine ⟨iter_length _ perm hb hperm, ?_, hjp, ?_, ?_⟩
  · rw [← List.length_flatten, hjp.length_eq]
  · intro hsh
    rw [hflat]
    subst hsh
    have hord0 : (BatchSampler.mk ind b false).idxOrder perm = List.range ind.length := rfl
    rw [hord0]
    exact map_getD_range ind 0
  · intro h0
    have hlen : ((BatchSampler.mk ind b sh).idxOrder perm).length = 0 := by
      rw [hord.length_eq, List.length_range]; exact h0
    have hnil := List.eq_nil_of_length_eq_zero hlen
    unfold BatchSampler.iter
    rw [hnil]
    rfl

/-- C1 witness: a concrete run over five indices with batch size 2 and no
shuffling. -/
theorem batchSampler_iter_covers_witness :
    ((BatchSampler.mk [10, 11, 12, 13, 14] 2 false).iter (List.range 5)).length =
        ([10, 11, 12, 13, 14].length + 2 - 1) / 2 ∧
    (((BatchSampler.mk [10, 11, 12, 13, 14] 2 false).iter (List.range 5)).map
        List.length).sum = [10, 11, 12, 13, 14].length ∧
    ((BatchSampler.mk [10, 11, 12, 13, 14] 2 false).iter
        (List.range 5)).flatten.Perm [10, 11, 12, 13, 14] ∧
    (false = false →
      ((BatchSampler.mk [10, 11, 12, 13, 14] 2 false).iter (List.range 5)).flatten =
        [10, 11, 12, 13, 14]) ∧
    ([10, 11, 12, 13, 14].length = 0 →
      (BatchSampler.mk [10, 11, 12, 13, 14] 2 false).iter (List.range 5) = []) :=
  batchSampler_iter_covers [10, 11, 12, 13, 14] 2 false (List.range 5) (by decide)
    (fun _ => List.Perm.refl _)

/-- C2: `length()` returns `floor(n/b)`, which is strictly below the
number of batches `iterate()` yields exactly when `n mod b ≠ 0`, and
equal to it when `n mod b = 0`. -/
theorem batchSampler_len_undercounts (ind : List Nat) (b : Nat) (sh : Bool)
    (perm : List Nat) (hb : 1 ≤ b)
    (hperm : sh = true → perm.Perm (List.range ind.length)) :
    (BatchSampler.mk ind b sh).len = ind.length / b ∧
    ((BatchSampler.mk ind b sh).len < ((BatchSampler.mk ind b sh).iter perm).length ↔
      ind.length % b ≠ 0) ∧
    (ind.length % b = 0 →
      (BatchSampler.mk ind b sh).len = ((BatchSampler.mk ind b sh).iter perm).length) := by
  have hl := iter_length (BatchSampler.mk ind b sh) perm hb hperm
  refine ⟨rfl, ?_, ?_⟩
  · rw [hl]
    show ind.length / b < (ind.length + b - 1) / b ↔ _
    rw [ceil_div_eq _ _ hb]
    by_cases h : ind.length % b = 0 <;> simp [h]
  · intro h
    rw [hl]
    show ind.length / b = (ind.length + b - 1) / b
    rw [ceil_div_eq _ _ hb]
    simp [h]

/-- C2 witness: five indices, batch size 2: `length()` is 2 while
`iterate()` yields 3 batches. -/
theorem batchSampler_len_undercounts_witness :
    (BatchSampler.mk [10, 11, 12, 13, 14] 2 false).len = [10, 11, 12, 13, 14].length / 2 ∧
    ((BatchSampler.mk [10, 11, 12, 13, 14] 2 false).len <
        ((BatchSampler.mk [10, 11, 12, 13, 14] 2 false).iter (List.range 5)).length ↔
      [10, 11, 12, 13, 14].length % 2 ≠ 0) ∧
    ([10, 11, 12, 13, 14].length % 2 = 0 →
      (BatchSampler.mk [10, 11, 12, 13, 14] 2 false).len =
        ((BatchSampler.mk [10, 11, 12, 13, 14] 2 false).iter (List.range 5)).length) :=
  batchSampler_len_undercounts [10, 11, 12, 13, 14] 2 false (List.range 5) (by decide)
    (fun _ => List.Perm.refl _)

/-! ## Helper lemmas on loader construction -/

theorem find_none_of_all_mem (keys reg : List String)
    (hall : ∀ k ∈ keys, k ∈ reg) :
    keys.find? (fun k => !(reg.contains k)) = none := by
  rw [List.find?_eq_none]
  intro k hk
  simp [hall k hk]

theorem init_eval_ok (adata : AnnData) (sh : Bool) (indices : Option IndicesArg)
    (bs : Nat) (daa : Option (List (String × Dtype))) (reg : List String)
    (hreg : adata.uns_scvi = some reg)
    (hfind : ((resolveSpec daa).map Prod.fst).find? (fun k => !(reg.contains k)) = none) :
    scviDataLoaderInit adata sh indices bs daa =
      .ok { _data_and_attributes := resolveSpec daa,
            sampler :=
              match indices with
              | none => ⟨List.range adata.n_obs, bs, sh⟩
              | some (.boolMask m) => ⟨npWhere m, bs, true⟩
              | some (.positional l) => ⟨l, bs, true⟩ } := by
  simp only [scviDataLoaderInit, hreg]
  rw [hfind]

theorem init_ok_spec (adata : AnnData) (sh : Bool) (indices : Option IndicesArg)
    (bs : Nat) (daa : Option (List (String × Dtype))) (st : ScviDataLoader)
    (h : scviDataLoaderInit adata sh indices bs daa = .ok st) :
    st._data_and_attributes = resolveSpec daa := by
  simp only [scviDataLoaderInit] at h
  split at h
  · cases h
  · split at h
    · cases h
    · injection h with h'
      subst h'
      rfl

/-! ## C3: construction-time registry validation -/

/-- C3: with no attached data registry the construction fails with the
not-configured error; with a registry present, a key of the resolved
FieldSpec missing from it fails with the missing-field error naming such
a key; with every resolved key registered the construction succeeds. -/
theorem scviDataLoaderInit_validation (adata : AnnData) (sh : Bool)
    (indices : Option IndicesArg) (bs : Nat)
    (daa : Option (List (String × Dtype))) :
    (adata.uns_scvi = none →
      scviDataLoaderInit adata sh indices bs daa = .error .notConfigured) ∧
    (∀ reg, adata.uns_scvi = some reg →
      ((∃ k ∈ (resolveSpec daa).map Prod.fst, k ∉ reg) →
        ∃ k, k ∈ (resolveSpec daa).map Prod.fst ∧ k ∉ reg ∧
          scviDataLoaderInit adata sh indices bs daa = .error (.missingField k)) ∧
      ((∀ k ∈ (resolveSpec daa).map Prod.fst, k ∈ reg) →
        ∃ st, scviDataLoaderInit adata sh indices bs daa = .ok st)) := by
  refine ⟨fun h => by simp [scviDataLoaderInit, h], fun reg hreg => ⟨?_, ?_⟩⟩
  · rintro ⟨k, hk, hnk⟩
    rcases hfind : ((resolveSpec daa).map Prod.fst).find? (fun k => !(reg.contains k))
      with _ | k0
    · exfalso
      have hnone := List.find?_eq_none.mp hfind k hk
      simp at hnone
      exact hnk hnone
    · have hp := List.find?_some hfind
      have hmem := List.mem_of_find?_eq_some hfind
      simp at hp
      refine ⟨k0, hmem, hp, ?_⟩
      simp only [scviDataLoaderInit, hreg]
      rw [hfind]
  · intro hall
    exact ⟨_, init_eval_ok adata sh indices bs daa reg hreg
      (find_none_of_all_mem _ reg hall)⟩

/-- C3 witness: a container without registry fails, one with a full
registry succeeds, one whose registry lacks `labels` fails with a
missing-field error. -/
theorem scviDataLoaderInit_validation_witness :
    scviDataLoaderInit ⟨none, 3, fun _ _ => 0⟩ false none 2 none =
      .error .notConfigured ∧
    (∃ st, scviDataLoaderInit
      ⟨some ["X", "batch", "local_l_mean", "local_l_var", "labels"], 3, fun _ _ => 0⟩
      false none 2 none = .ok st) ∧
    (∃ k, k ∈ (resolveSpec none).map Prod.fst ∧
      k ∉ ["X", "batch", "local_l_mean", "local_l_var"] ∧
      scviDataLoaderInit
        ⟨some ["X", "batch", "local_l_mean", "local_l_var"], 3, fun _ _ => 0⟩
        false none 2 none = .error (.missingField k)) := by
  refine ⟨(scviDataLoaderInit_validation _ false none 2 none).1 rfl, ?_, ?_⟩
  · exact ((scviDataLoaderInit_validation _ false none 2 none).2 _ rfl).2
      (by decide)
  · exact ((scviDataLoaderInit_validation _ false none 2 none).2 _ rfl).1
      ⟨"labels", by decide, by decide⟩

/-! ## C4: shuffle policy asymmetry -/

/-- C4: when explicit indices are supplied the sampler is constructed
with `shuffle = true` regardless of the caller's flag; with no explicit
indices the sampler gets the caller's flag and the full range
`[0, len(dataset))`. -/
theorem scviDataLoaderInit_shuffle_policy (adata : AnnData) (sh : Bool) (bs : Nat)
    (daa : Option (List (String × Dtype))) (reg : List String)
    (hreg : adata.uns_scvi = some reg)
    (hall : ∀ k ∈ (resolveSpec daa).map Prod.fst, k ∈ reg) :
    (∀ arg : IndicesArg, ∃ inds : List Nat,
      scviDataLoaderInit adata sh (some arg) bs daa =
        .ok ⟨resolveSpec daa, ⟨inds, bs, true⟩⟩) ∧
    scviDataLoaderInit adata sh none bs daa =
      .ok ⟨resolveSpec daa, ⟨List.range adata.n_obs, bs, sh⟩⟩ := by
  have hfind := find_none_of_all_mem ((resolveSpec daa).map Prod.fst) reg hall
  constructor
  · intro arg
    rcases arg with m | l
    · exact ⟨npWhere m, init_eval_ok adata sh _ bs daa reg hreg hfind⟩
    · exact ⟨l, init_eval_ok adata sh _ bs daa reg hreg hfind⟩
  · exact init_eval_ok adata sh none bs daa reg hreg hfind

/-- C4 witness: with explicit positional indices the sampler shuffles
even though the caller passed `shuffle = false`; without indices the
caller's `false` is honored. -/
theorem scviDataLoaderInit_shuffle_policy_witness :
    (∀ arg : IndicesArg, ∃ inds : List Nat,
      scviDataLoaderInit
        ⟨some ["X", "batch", "local_l_mean", "local_l_var", "labels"], 3, fun _ _ => 0⟩
        false (some arg) 2 none = .ok ⟨resolveSpec none, ⟨inds, 2, true⟩⟩) ∧
    scviDataLoaderInit
      ⟨some ["X", "batch", "local_l_mean", "local_l_var", "labels"], 3, fun _ _ => 0⟩
      false none 2 none = .ok ⟨resolveSpec none, ⟨List.range 3, 2, false⟩⟩ :=
  scviDataLoaderInit_shuffle_policy _ false 2 none _ rfl (by decide)

/-! ## C6: boolean-mask index selection -/

/-- C6: a boolean mask of the dataset's length passed as `indices` gives
the sampler exactly the positions at which the mask is true
(`np.where(mask)`), while a positional list is used as-is. -/
theorem scviDataLoaderInit_indices_mask (adata : AnnData) (sh : Bool) (bs : Nat)
    (daa : Option (List (String × Dtype))) (reg : List String)
    (hreg : adata.uns_scvi = some reg)
    (hall : ∀ k ∈ (resolveSpec daa).map Prod.fst, k ∈ reg)
    (m : List Bool) (_hm : m.length = adata.n_obs) :
    scviDataLoaderInit adata sh (some (.boolMask m)) bs daa =
      .ok ⟨resolveSpec daa, ⟨npWhere m, bs, true⟩⟩ ∧
    (∀ i, i ∈ npWhere m ↔ i < m.length ∧ m.getD i false = true) ∧
    (∀ l, scviDataLoaderInit adata sh (some (.positional l)) bs daa =
      .ok ⟨resolveSpec daa, ⟨l, bs, true⟩⟩) := by
  have hfind := find_none_of_all_mem ((resolveSpec daa).map Prod.fst) reg hall
  refine ⟨init_eval_ok adata sh _ bs daa reg hreg hfind, ?_,
    fun l => init_eval_ok adata sh _ bs daa reg hreg hfind⟩
  intro i
  simp [npWhere, List.mem_filter, List.mem_range]

/-- C6 witness: the mask `[true, false, true]` over a 3-row container
selects exactly the sampler indices `[0, 2]`. -/
theorem scviDataLoaderInit_indices_mask_witness :
    scviDataLoaderInit
      ⟨some ["X", "batch", "local_l_mean", "local_l_var", "labels"], 3, fun _ _ => 0⟩
      false (some (.boolMask [true, false, true])) 2 none =
      .ok ⟨resolveSpec none, ⟨npWhere [true, false, true], 2, true⟩⟩ ∧
    npWhere [true, false, true] = [0, 2] := by
  refine ⟨(scviDataLoaderInit_indices_mask _ false 2 none _ rfl (by decide)
    [true, false, true] rfl).1, by decide⟩

/-! ## C5: default FieldSpec and dtype-cast tensor batches -/

theorem hasDtype_castTo (dt : Dtype) (q : Rat) : (castTo dt q).hasDtype dt = true := by
  cases dt <;> rfl

theorem zip_self_map {α : Type u} {β : Type v} (l : List α) (f : α → β) :
    l.zip (l.map f) = l.map fun a => (a, f a) := by
  induction l with
  | nil => rfl
  | cons x xs ih => simp [ih]

theorem tensorBatch_keys (adata : AnnData) (spec : List (String × Dtype))
    (rows : List Nat) :
    (tensorBatch adata spec rows).map Prod.fst = spec.map Prod.fst := by
  induction spec with
  | nil => rfl
  | cons p ps ih => simp only [tensorBatch, List.map_cons] at *; rw [ih]

theorem wellTyped_tensorBatch (adata : AnnData) (spec : List (String × Dtype))
    (rows : List Nat) :
    wellTyped spec (tensorBatch adata spec rows) = true := by
  unfold wellTyped tensorBatch
  rw [zip_self_map]
  refine (Bool.and_eq_true _ _).mpr ⟨by simp, ?_⟩
  rw [List.all_eq_true]
  intro z hz
  obtain ⟨p, hp, rfl⟩ := List.mem_map.mp hz
  simp [List.all_map, List.all_eq_true, hasDtype_castTo]

/-- C5: when no FieldSpec is supplied, the resolved spec is exactly
{X: float32, batch: int64, local_l_mean: float32, local_l_var: float32,
labels: int64}, and every TensorBatch the loader's iteration yields has
exactly those five keys, with every value cast to the key's dtype, the
batch being the realization of one of the sampler's index batches
through that spec. -/
theorem scviDataLoaderInit_default_spec (adata : AnnData) (sh : Bool)
    (indices : Option IndicesArg) (bs : Nat) (st : ScviDataLoader)
    (perm : List Nat)
    (h : scviDataLoaderInit adata sh indices bs none = .ok st) :
    st._data_and_attributes =
      [("X", Dtype.float32), ("batch", Dtype.int64),
       ("local_l_mean", Dtype.float32), ("local_l_var", Dtype.float32),
       ("labels", Dtype.int64)] ∧
    ∀ tb ∈ loaderBatches adata st perm,
      tb.map Prod.fst = ["X", "batch", "local_l_mean", "local_l_var", "labels"] ∧
      wellTyped defaultSpec tb = true ∧
      ∃ rows ∈ st.sampler.iter perm, tb = tensorBatch adata defaultSpec rows := by
  have hspec : st._data_and_attributes = defaultSpec :=
    init_ok_spec adata sh indices bs none st h
  refine ⟨hspec, ?_⟩
  intro tb htb
  unfold loaderBatches at htb
  rw [hspec] at htb
  obtain ⟨rows, hrows, rfl⟩ := List.mem_map.mp htb
  exact ⟨by rw [tensorBatch_keys]; rfl, wellTyped_tensorBatch adata defaultSpec rows,
    rows, hrows, rfl⟩

/-- C5 witness: a concrete 3-row container with the full default
registry, default FieldSpec, batch size 2. -/
theorem scviDataLoaderInit_default_spec_witness :
    (⟨defaultSpec, ⟨List.range 3, 2, false⟩⟩ : ScviDataLoader)._data_and_attributes =
      [("X", Dtype.float32), ("batch", Dtype.int64),
       ("local_l_mean", Dtype.float32), ("local_l_var", Dtype.float32),
       ("labels", Dtype.int64)] ∧
    ∀ tb ∈ loaderBatches ⟨some ["X", "batch", "local_l_mean", "local_l_var", "labels"],
        3, fun _ _ => 0⟩ ⟨defaultSpec, ⟨List.range 3, 2, false⟩⟩ (List.range 3),
      tb.map Prod.fst = ["X", "batch", "local_l_mean", "local_l_var", "labels"] ∧
      wellTyped defaultSpec tb = true ∧
      ∃ rows ∈ (BatchSampler.mk (List.range 3) 2 false).iter (List.range 3),
        tb = tensorBatch ⟨some ["X", "batch", "local_l_mean", "local_l_var", "labels"],
          3, fun _ _ => 0⟩ defaultSpec rows :=
  scviDataLoaderInit_default_spec
    ⟨some ["X", "batch", "local_l_mean", "local_l_var", "labels"], 3, fun _ _ => 0⟩
    false none 2 ⟨defaultSpec, ⟨List.range 3, 2, false⟩⟩ (List.range 3)
    (init_eval_ok _ false none 2 none
      ["X", "batch", "local_l_mean", "local_l_var", "labels"] rfl (by decide))

/-! ## C7: SCVILoss normalization and summed reads -/

/-- C7: bare constructor arguments are normalized into single-entry
mappings under their default names; each public read is the sum of that
category's named terms, so bare-scalar construction reads back the same
scalars and the mapping {a: 1, b: 3/2} reads back 5/2 as its
reconstruction loss. -/
theorem scviLoss_reads (a b c d : Rat) (nm : String) (dm : List (String × Rat)) :
    (SCVILoss.init (.scalar a) (.scalar b) (.scalar c) (.scalar d)).loss = a ∧
    (SCVILoss.init (.scalar a) (.scalar b) (.scalar c)
      (.scalar d)).reconstruction_loss = b ∧
    (SCVILoss.init (.scalar a) (.scalar b) (.scalar c) (.scalar d)).kl_local = c ∧
    (SCVILoss.init (.scalar a) (.scalar b) (.scalar c) (.scalar d)).kl_global = d ∧
    LossInput.normalize nm (.scalar a) = [(nm, a)] ∧
    LossInput.normalize nm (.mapping dm) = dm ∧
    (SCVILoss.init (.scalar a) (.mapping [("a", 1), ("b", 3 / 2)]) (.scalar c)
      (.scalar d)).reconstruction_loss = 5 / 2 := by
  refine ⟨?_, ?_, ?_, ?_, rfl, rfl, ?_⟩ <;>
    simp [SCVILoss.init, SCVILoss.loss, SCVILoss.reconstruction_loss,
      SCVILoss.kl_local, SCVILoss.kl_global, _get_dict_sum, LossInput.normalize] <;>
    norm_num

/-! ## C8: forward return contract and stage order -/

/-- C8: `forward` with `compute_loss = true` returns exactly the triple
of the inference outputs, the generative outputs and the result of the
loss hook; with `compute_loss = false` exactly the pair, and the result
then does not depend on the loss hook at all. The stage composition is
explicit: gather-inference-input feeds inference, whose output feeds
gather-generative-input, which feeds generative, which (with the raw
tensors and inference outputs) feeds loss. -/
theorem abstractVAE_forward_contract {T II IOut GI GO L : Type u}
    (m : AbstractVAE T II IOut GI GO L) (tensors : T)
    (giik ggik ik gk lk : PParam) :
    (m.forward tensors giik ggik ik gk lk true =
      ForwardResult.triple
        (m.inference (m.get_inference_input tensors (_get_dict_if_none giik))
          (_get_dict_if_none ik))
        (m.generative
          (m.get_generative_input tensors
            (m.inference (m.get_inference_input tensors (_get_dict_if_none giik))
              (_get_dict_if_none ik))
            (_get_dict_if_none ggik))
          (_get_dict_if_none gk))
        (m.loss tensors
          (m.inference (m.get_inference_input tensors (_get_dict_if_none giik))
            (_get_dict_if_none ik))
          (m.generative
            (m.get_generative_input tensors
              (m.inference (m.get_inference_input tensors (_get_dict_if_none giik))
                (_get_dict_if_none ik))
              (_get_dict_if_none ggik))
            (_get_dict_if_none gk))
          (_get_dict_if_none lk))) ∧
    (m.forward tensors giik ggik ik gk lk false =
      ForwardResult.pair
        (m.inference (m.get_inference_input tensors (_get_dict_if_none giik))
          (_get_dict_if_none ik))
        (m.generative
          (m.get_generative_input tensors
            (m.inference (m.get_inference_input tensors (_get_dict_if_none giik))
              (_get_dict_if_none ik))
            (_get_dict_if_none ggik))
          (_get_dict_if_none gk))) ∧
    (∀ lossHook : T → IOut → GO → KW → L,
      (AbstractVAE.mk m.get_inference_input m.inference m.get_generative_input
        m.generative lossHook).forward tensors giik ggik ik gk lk false =
      m.forward tensors giik ggik ik gk lk false) :=
  ⟨rfl, rfl, fun _ => rfl⟩

/-! ## C9: data_loader_kwargs copy and override -/

theorem dictGet_setKey_self (d : PyDict) (k : String) (v : PyObj) :
    dictGet (setKey d k v) k = some v := by
  induction d with
  | nil => simp [setKey, dictGet]
  | cons p rest ih =>
    obtain ⟨k', v'⟩ := p
    simp only [setKey]
    by_cases h : (k' == k) = true
    · rw [if_pos h]
      simp [dictGet]
    · rw [if_neg h]
      simp only [dictGet]
      rw [if_neg h]
      exact ih

theorem dictGet_setKey_ne (d : PyDict) (k k2 : String) (v : PyObj)
    (h : (k == k2) = false) :
    dictGet (setKey d k v) k2 = dictGet d k2 := by
  induction d with
  | nil => simp [setKey, dictGet, h]
  | cons p rest ih =>
    obtain ⟨k', v'⟩ := p
    simp only [setKey]
    by_cases h' : (k' == k) = true
    · rw [if_pos h']
      have hk : k' = k := by simpa using h'
      subst hk
      simp [dictGet, h]
    · rw [if_neg h']
      simp only [dictGet]
      by_cases h2 : (k' == k2) = true
      · rw [if_pos h2, if_pos h2]
      · rw [if_neg h2, if_neg h2]
        exact ih

/-- C9: the caller's `data_loader_kwargs` object is unchanged by the
construction (the update is applied to a shallow copy), and the
configuration object actually handed to the underlying `DataLoader` maps
`"sampler"` to the adapter's own sampler and `"batch_size"` to `None`,
whatever the caller put at those keys. -/
theorem dataLoaderKwargs_override (h : Heap) (a : Nat) (s : BatchSampler)
    (ha : a < h.length) :
    heapGet (dataLoaderKwargsSetup h a s).2 a = heapGet h a ∧
    dictGet (heapGet (dataLoaderKwargsSetup h a s).2 (dataLoaderKwargsSetup h a s).1)
      "sampler" = some (PyObj.sampler s) ∧
    dictGet (heapGet (dataLoaderKwargsSetup h a s).2 (dataLoaderKwargsSetup h a s).1)
      "batch_size" = some PyObj.pyNone := by
  unfold dataLoaderKwargsSetup heapGet heapSet
  simp only
  have hne : a ≠ h.length := by omega
  have hupd : ∀ d : PyDict,
      dictUpdate d [("sampler", PyObj.sampler s), ("batch_size", PyObj.pyNone)] =
        setKey (setKey d "sampler" (PyObj.sampler s)) "batch_size" PyObj.pyNone :=
    fun d => rfl
  refine ⟨?_, ?_, ?_⟩
  · rw [List.getD_eq_getElem?_getD, List.getD_eq_getElem?_getD,
      List.getElem?_set_ne (by omega), List.getElem?_append_left ha]
  · rw [List.getD_eq_getElem?_getD,
      List.getElem?_set_self (by simp), Option.getD_some, hupd]
    rw [dictGet_setKey_ne _ _ _ _ (by decide), dictGet_setKey_self]
  · rw [List.getD_eq_getElem?_getD,
      List.getElem?_set_self (by simp), Option.getD_some, hupd]
    rw [dictGet_setKey_self]

/-- C9 witness: a heap with one caller dict that already binds
`"sampler"` and `"batch_size"`; both are overridden in the copy and the
caller's dict is untouched. -/
theorem dataLoaderKwargs_override_witness :
    heapGet (dataLoaderKwargsSetup
      [[("batch_size", PyObj.other 64), ("sampler", PyObj.pyNone)]] 0
      ⟨[0, 1], 2, false⟩).2 0 =
      heapGet [[("batch_size", PyObj.other 64), ("sampler", PyObj.pyNone)]] 0 ∧
    dictGet (heapGet (dataLoaderKwargsSetup
        [[("batch_size", PyObj.other 64), ("sampler", PyObj.pyNone)]] 0
        ⟨[0, 1], 2, false⟩).2
      (dataLoaderKwargsSetup
        [[("batch_size", PyObj.other 64), ("sampler", PyObj.pyNone)]] 0
        ⟨[0, 1], 2, false⟩).1) "sampler" = some (PyObj.sampler ⟨[0, 1], 2, false⟩) ∧
    dictGet (heapGet (dataLoaderKwargsSetup
        [[("batch_size", PyObj.other 64), ("sampler", PyObj.pyNone)]] 0
        ⟨[0, 1], 2, false⟩).2
      (dataLoaderKwargsSetup
        [[("batch_size", PyObj.other 64), ("sampler", PyObj.pyNone)]] 0
        ⟨[0, 1], 2, false⟩).1) "batch_size" = some PyObj.pyNone :=
  dataLoaderKwargs_override
    [[("batch_size", PyObj.other 64), ("sampler", PyObj.pyNone)]] 0
    ⟨[0, 1], 2, false⟩ (by decide)

/-! ## C10: non-dict keyword overrides are silently replaced by `{}` -/

/-- C10: `_get_dict_if_none` maps every non-dict value — not only `None`
— to the empty dict, so `forward` behaves on any non-mapping override
values exactly as on unset ones, without raising. -/
theorem forward_nondict_kwargs_ignored {T II IOut GI GO L : Type u}
    (m : AbstractVAE T II IOut GI GO L) (tensors : T)
    (p1 p2 p3 p4 p5 : PParam) (cl : Bool)
    (h1 : p1.isDict = false) (h2 : p2.isDict = false) (h3 : p3.isDict = false)
    (h4 : p4.isDict = false) (h5 : p5.isDict = false) :
    _get_dict_if_none p1 = [] ∧ _get_dict_if_none p2 = [] ∧
    _get_dict_if_none p3 = [] ∧ _get_dict_if_none p4 = [] ∧
    _get_dict_if_none p5 = [] ∧
    m.forward tensors p1 p2 p3 p4 p5 cl =
      m.forward tensors .pnone .pnone .pnone .pnone .pnone cl := by
  have e : ∀ p : PParam, p.isDict = false → _get_dict_if_none p = [] := by
    intro p hp
    cases p <;> simp [PParam.isDict, _get_dict_if_none] at hp ⊢
  refine ⟨e p1 h1, e p2 h2, e p3 h3, e p4 h4, e p5 h5, ?_⟩
  unfold AbstractVAE.forward
  rw [e p1 h1, e p2 h2, e p3 h3, e p4 h4, e p5 h5]
  rfl

/-- A concrete model over integers used to witness the forward-pass
claims. -/
def constModel : AbstractVAE Int Int Int Int Int Int where
  get_inference_input := fun t _ => t
  inference := fun i _ => i + 1
  get_generative_input := fun _ io _ => io
  generative := fun g _ => g * 2
  loss := fun t io go _ => t + io + go

/-- C10 witness: a list, a number, `None` and another list passed as four
of the five overrides behave exactly like all-`None`. -/
theorem forward_nondict_kwargs_ignored_witness :
    _get_dict_if_none (PParam.plist [1, 2]) = [] ∧
    _get_dict_if_none (PParam.pnum 3) = [] ∧
    _get_dict_if_none PParam.pnone = [] ∧
    _get_dict_if_none (PParam.plist []) = [] ∧
    _get_dict_if_none (PParam.pnum (-7)) = [] ∧
    constModel.forward 5 (.plist [1, 2]) (.pnum 3) .pnone (.plist [])
        (.pnum (-7)) true =
      constModel.forward 5 .pnone .pnone .pnone .pnone .pnone true :=
  forward_nondict_kwargs_ignored constModel 5 (.plist [1, 2]) (.pnum 3) .pnone
    (.plist []) (.pnum (-7)) true rfl rfl rfl rfl rfl

end Scvi
